import Mathlib

/-!
Shallow embedding of `fetch_market_prices.py` (EVE_MarketPrice_Fetch).

The script fetches paginated market orders over HTTP, filters them to one
solar system, aggregates best bid / best ask per item type, writes a JSON
file, and classifies unhandled pipeline errors with an independent status
probe.  Network and filesystem effects are modelled by passing each
request's outcome in as data (an `Except` value for fallible requests);
everything else is translated directly from the Python source.
-/

namespace MarketPrices

/-- Values a JSON field may hold where the code tests `x is True` /
`x is False`: the Python booleans, or any other (non-boolean) value. -/
inductive BoolVal where
  | vtrue
  | vfalse
  | vother
deriving DecidableEq, Repr

/-- One market-order record, with the four fields the script reads.
`system_id` and `type_id` are `none` when the key is absent from the JSON
object (Python `dict.get` returns `None`); `is_buy_order` is `none` when
absent and otherwise records whether the value is the boolean `True`, the
boolean `False`, or anything else.  Prices are JSON numbers, idealised as
rationals. -/
structure Order where
  system_id : Option Int
  type_id : Option Int
  is_buy_order : Option BoolVal
  price : Rat
deriving DecidableEq, Repr

/-- Constant `TARGET_SYSTEM_ID = 30000142` from the source. -/
def TARGET_SYSTEM_ID : Int := 30000142

/-- Exit code constants from the source. -/
def EXIT_SUCCESS : Int := 0

/-- Constant `EXIT_REAL_FAILURE = 1` from the source. -/
def EXIT_REAL_FAILURE : Int := 1

/-- Constant `EXIT_MAINTENANCE = 2` from the source. -/
def EXIT_MAINTENANCE : Int := 2

/-! ### Order aggregator (`process_orders`) -/

/-- Step 1 of `process_orders`:
`[order for order in orders if order.get('system_id') == TARGET_SYSTEM_ID]`. -/
def filteredOrders (orders : List Order) : List Order :=
  orders.filter (fun o => decide (o.system_id = some TARGET_SYSTEM_ID))

/-- Python `defaultdict(list)` insertion: append `o` to the group keyed `t`, or
create a new singleton group at the end when the key is new. -/
def addToGroup : List (Int × List Order) → Int → Order → List (Int × List Order)
  | [], t, o => [(t, [o])]
  | (k, g) :: rest, t, o =>
      if k = t then (k, g ++ [o]) :: rest else (k, g) :: addToGroup rest t o

/-- The body of the grouping loop of `process_orders`: read `type_id` with
`dict.get`; skip falsy values (absent, or the integer 0 — Python
`if type_id:`), otherwise insert into the group. -/
def groupStep (acc : List (Int × List Order)) (o : Order) : List (Int × List Order) :=
  match o.type_id with
  | some t => if t = 0 then acc else addToGroup acc t o
  | none => acc

/-- Step 2 of `process_orders`: group the filtered orders by `type_id`.
The association list mirrors the insertion order of the Python
`defaultdict`. -/
def ordersByType (filtered : List Order) : List (Int × List Order) :=
  filtered.foldl groupStep []

/-- A price-summary entry: optional best bid `b`, optional best ask `s`. -/
structure Entry where
  b : Option Rat
  s : Option Rat
deriving DecidableEq, Repr

/-- Python `max(x :: xs)` as a left fold. -/
def pyMax (x : Rat) (xs : List Rat) : Rat := xs.foldl max x

/-- Python `min(x :: xs)` as a left fold. -/
def pyMin (x : Rat) (xs : List Rat) : Rat := xs.foldl min x

/-- The buy partition: `[o for o in type_orders if o.get('is_buy_order') is True]`. -/
def buySide (g : List Order) : List Order :=
  g.filter (fun o => decide (o.is_buy_order = some BoolVal.vtrue))

/-- The sell partition: `[o for o in type_orders if o.get('is_buy_order') is False]`. -/
def sellSide (g : List Order) : List Order :=
  g.filter (fun o => decide (o.is_buy_order = some BoolVal.vfalse))

/-- Python `max(l) if l else 0`: max with the script's 0 default. -/
def pyMaxD : List Rat → Rat
  | [] => 0
  | x :: xs => pyMax x xs

/-- Python `min(l) if l else 0`: min with the script's 0 default. -/
def pyMinD : List Rat → Rat
  | [] => 0
  | x :: xs => pyMin x xs

/-- The reduction `max([o['price'] for o in buy_orders]) if buy_orders else 0`. -/
def maxBuyPrice (g : List Order) : Rat :=
  pyMaxD ((buySide g).map Order.price)

/-- The reduction `min([o['price'] for o in sell_orders]) if sell_orders else 0`. -/
def minSellPrice (g : List Order) : Rat :=
  pyMinD ((sellSide g).map Order.price)

/-- The body of the per-group loop of `process_orders`: skip the group when
both reduced prices are 0, otherwise build the entry with `b` only when
`max_buy_price > 0` and `s` only when `min_sell_price > 0`. -/
def entryFor (g : List Order) : Option Entry :=
  let mb := maxBuyPrice g
  let ms := minSellPrice g
  if mb = 0 ∧ ms = 0 then none
  else some { b := if 0 < mb then some mb else none,
              s := if 0 < ms then some ms else none }

/-- The result-building loop of `process_orders`: iterate the groups in
insertion order, appending `(type_id, entry)` for each non-skipped group. -/
def buildResult (acc : List (Int × Entry)) : List (Int × List Order) → List (Int × Entry)
  | [] => acc
  | (t, g) :: rest =>
      match entryFor g with
      | some e => buildResult (acc ++ [(t, e)]) rest
      | none => buildResult acc rest

/-- Function `process_orders` from the source: filter by system, group by type,
reduce each group to a price-summary entry.  The Python function keys the
result dict by `str(type_id)`; since `str` is injective on integers the
embedding keeps the integer key. -/
def process_orders (orders : List Order) : List (Int × Entry) :=
  buildResult [] (ordersByType (filteredOrders orders))

/-- First-match association-list lookup of a group, defaulting to `[]`
for a missing key (a `defaultdict` key that was never inserted). -/
def lookupG (t : Int) : List (Int × List Order) → List Order
  | [] => []
  | (k, g) :: rest => if k = t then g else lookupG t rest

/-- First-match association-list lookup of a result entry: the mapping
denoted by the Python result dict. -/
def lookupEntry (t : Int) : List (Int × Entry) → Option Entry
  | [] => none
  | (k, e) :: rest => if k = t then some e else lookupEntry t rest

/-- The group of surviving orders for item type `t`: system filter then
type filter. -/
def groupOf (orders : List Order) (t : Int) : List Order :=
  (filteredOrders orders).filter (fun o => decide (o.type_id = some t))

/-- The aggregate, viewed as a mapping from item type to entry: type 0 is
dropped by the grouping step; any other type maps to its group's entry. -/
def entryAt (orders : List Order) (t : Int) : Option Entry :=
  if t = 0 then none else entryFor (groupOf orders t)

/-! ### Bridge: the association list built by `process_orders` denotes
the mapping `entryAt`. -/

/-- The keys of a group association list. -/
def keysG (d : List (Int × List Order)) : List Int := d.map Prod.fst

/-- First-match lookup of a group entry followed by the per-group
reduction: the mapping denoted by the grouped data. -/
def resLookup (t : Int) : List (Int × List Order) → Option Entry
  | [] => none
  | (k, g) :: rest => if k = t then entryFor g else resLookup t rest

/-- Left-biased choice on optional entries (Python dict precedence). -/
def optOr (a b : Option Entry) : Option Entry :=
  match a with
  | some x => some x
  | none => b

/-! ### Page fetcher, pagination coordinator, pipeline -/

/-- The ways a single HTTP request in this script can fail: the exception
caught (or propagated) by the Python code — timeout, non-2xx status from
`raise_for_status`, JSON decode failure — plus the `ValueError` that
`int()` raises on an unparsable `x-pages` header. -/
inductive FetchError where
  | timeout
  | badStatus
  | decodeFail
  | valueError
deriving DecidableEq, Repr

/-- Decidable equality for request outcomes, so that witnesses can be
checked by evaluation. -/
instance {ε α : Type} [DecidableEq ε] [DecidableEq α] : DecidableEq (Except ε α) :=
  fun x y =>
    match x, y with
    | .ok a, .ok b =>
        if h : a = b then isTrue (by rw [h]) else isFalse (fun hc => h (Except.ok.inj hc))
    | .error a, .error b =>
        if h : a = b then isTrue (by rw [h]) else isFalse (fun hc => h (Except.error.inj hc))
    | .ok _, .error _ => isFalse (fun hc => Except.noConfusion hc)
    | .error _, .ok _ => isFalse (fun hc => Except.noConfusion hc)

/-- Function `fetch_page` from the source, for pages dispatched by the coordinator.
The network outcome of the single GET is passed in as data: `.ok records`
when the request succeeded and decoded, `.error e` when any exception was
raised inside the `try`.  The function is total — the `except` clause maps
every failure to `(page, [])`, so no error ever propagates. -/
def fetch_page (page : Int) (outcome : Except FetchError (List Order)) : Int × List Order :=
  match outcome with
  | .ok records => (page, records)
  | .error _ => (page, [])

/-- The page-1 response, as far as `get_total_pages` reads it: the
optional `x-pages` header string and the decoded body.  A request that
raised (timeout, non-2xx, decode failure) is an `Except.error` around
this. -/
structure Page1Response where
  x_pages : Option String
  records : List Order
deriving DecidableEq, Repr

/-- Accumulator loop for the decimal digits of a Python `int(...)` string:
fails on the first non-digit character. -/
def pyDigits (acc : Nat) : List Char → Option Nat
  | [] => some acc
  | c :: cs => if c.isDigit then pyDigits (acc * 10 + (c.toNat - 48)) cs else none

/-- Python `int(s)` on a string: an optional sign followed by at least one
decimal digit yields the integer; anything else raises `ValueError`
(`none` here).  (Python's whitespace stripping, underscores and non-ASCII
digits are not modelled; no claim depends on them.) -/
def pyIntOfString (s : String) : Option Int :=
  match s.data with
  | [] => none
  | '-' :: cs =>
      match cs with
      | [] => none
      | _ => (pyDigits 0 cs).map (fun n => -(n : Int))
  | '+' :: cs =>
      match cs with
      | [] => none
      | _ => (pyDigits 0 cs).map (fun n => (n : Int))
  | cs => (pyDigits 0 cs).map (fun n => (n : Int))

/-- Function `get_total_pages` from the source: the page-1 request has no
`try`/`except`, so a failed request propagates unchanged.  On success,
`int(response.headers.get('x-pages', 1))`: an absent header defaults to
the integer 1; a present header goes through `int()`, whose `ValueError`
on an unparsable string also propagates. -/
def get_total_pages (resp : Except FetchError Page1Response) :
    Except FetchError (Int × List Order) :=
  match resp with
  | .error e => .error e
  | .ok r =>
      match r.x_pages with
      | none => .ok (1, r.records)
      | some s =>
          match pyIntOfString s with
          | some n => .ok (n, r.records)
          | none => .error .valueError

/-- Python dict assignment `d[k] = v`: overwrite in place, or append a new
key at the end (insertion order preserved). -/
def dictInsert : List (Int × List Order) → Int → List Order → List (Int × List Order)
  | [], k, v => [(k, v)]
  | (k', v') :: rest, k, v =>
      if k' = k then (k, v) :: rest else (k', v') :: dictInsert rest k v

/-- The dict comprehension over gathered results, with later duplicate keys overwriting earlier ones. -/
def resultsDict (results : List (Int × List Order)) : List (Int × List Order) :=
  results.foldl (fun d pd => dictInsert d pd.1 pd.2) []

/-- The merge loop of `fetch_all_pages`: build `results_dict`, then for
each key in `sorted(results_dict.keys())` extend the accumulated list
with that page's records, starting from page 1's records.  Python
`sorted` is modelled by insertion sort, which computes the same ascending
arrangement. -/
def mergeResults (first : List Order) (results : List (Int × List Order)) : List Order :=
  let d := resultsDict results
  ((keysG d).insertionSort (· ≤ ·)).foldl
    (fun acc p => acc ++ lookupG p d) first

/-- The body of `fetch_all_pages` after `get_total_pages` succeeded: with
only one page, return page 1's records directly; otherwise run the
gathered page results (each a `fetch_page` result `(page, records)`)
through the merge loop. -/
def fetch_all_pages_merge (total : Int) (first : List Order)
    (results : List (Int × List Order)) : List Order :=
  if total = 1 then first else mergeResults first results

/-- Function `fetch_all_pages` from the source.  `page1` is the outcome of the
unbounded page-1 request; `results` is the list returned by
`asyncio.gather` over `fetch_page` for pages `2 .. total`, passed in as
data (its completion order is abstracted by the theorems below).  An
error from `get_total_pages` propagates. -/
def fetch_all_pages (page1 : Except FetchError Page1Response)
    (results : List (Int × List Order)) : Except FetchError (List Order) :=
  match get_total_pages page1 with
  | .error e => .error e
  | .ok (total, first) => .ok (fetch_all_pages_merge total first results)

/-- The pages `2 .. total` the coordinator fans out
(`range(2, total_pages + 1)` — empty when `total < 2`). -/
def pagesFrom2 (total : Int) : List Int :=
  (List.range' 2 (total - 1).toNat).map (fun n : Nat => (n : Int))

/-- The pages `1 .. total` in ascending order. -/
def pageSeq (total : Int) : List Int := 1 :: pagesFrom2 total

/-- The `try` body of `main`: fetch all pages, then aggregate.  The value
carried by `.ok` is the aggregate that `save_data` then writes; any error
short-circuits, so on `.error` neither aggregation nor persistence
happens. -/
def runPipeline (page1 : Except FetchError Page1Response)
    (results : List (Int × List Order)) : Except FetchError (List (Int × Entry)) :=
  match fetch_all_pages page1 results with
  | .error e => .error e
  | .ok orders => .ok (process_orders orders)

/-! ### Failure classifier -/

/-- The value of the `players` field of the decoded `/status` body:
a JSON number (idealised as a rational), or some non-numeric value
(`isinstance(players, (int, float))` fails). -/
inductive PlayersVal where
  | num (q : Rat)
  | nonnum
deriving DecidableEq, Repr

/-- Outcome of the status probe: `.ok players` when the GET succeeded,
2xx, and the body decoded (with the optional `players` field as read by
`data.get("players")`); `.fail` when any exception was raised (timeout,
non-2xx, decode failure). -/
inductive ProbeResult where
  | ok (players : Option PlayersVal)
  | fail
deriving DecidableEq, Repr

/-- Python `int()` on a number: truncation toward zero. -/
def pyTrunc (q : Rat) : Int := Int.tdiv q.num (q.den : Int)

/-- Function `check_esi_status` from the source: `None` on any exception, `None`
when `players` is absent or non-numeric, otherwise `int(players)`.  The
function is total — the `try`/`except Exception` means it never raises. -/
def check_esi_status (probe : ProbeResult) : Option Int :=
  match probe with
  | .fail => none
  | .ok none => none
  | .ok (some .nonnum) => none
  | .ok (some (.num q)) => some (pyTrunc q)

/-- The `except` branch of `main`: exit 1 when the probe yields a players
count strictly greater than 0, exit 2 otherwise. -/
def classify (probe : ProbeResult) : Int :=
  match check_esi_status probe with
  | some players => if 0 < players then EXIT_REAL_FAILURE else EXIT_MAINTENANCE
  | none => EXIT_MAINTENANCE

/-- Function `main` from the source: run the pipeline; on success return
`EXIT_SUCCESS`, on an unhandled pipeline error classify via the status
probe. -/
def mainRun (pipeline : Except FetchError (List (Int × Entry)))
    (probe : ProbeResult) : Int :=
  match pipeline with
  | .ok _ => EXIT_SUCCESS
  | .error _ => classify probe

/-! ### Sample data used by witnesses and counterexamples -/

/-- Four well-formed Jita orders of item type 34: buys at 100 and 150,
sells at 200 and 180. -/
def sampleOrders : List Order :=
  [⟨some 30000142, some 34, some BoolVal.vtrue, 100⟩,
   ⟨some 30000142, some 34, some BoolVal.vtrue, 150⟩,
   ⟨some 30000142, some 34, some BoolVal.vfalse, 200⟩,
   ⟨some 30000142, some 34, some BoolVal.vfalse, 180⟩]

/-- A permutation of `sampleOrders`. -/
def sampleOrdersPerm : List Order :=
  [⟨some 30000142, some 34, some BoolVal.vfalse, 180⟩,
   ⟨some 30000142, some 34, some BoolVal.vtrue, 150⟩,
   ⟨some 30000142, some 34, some BoolVal.vfalse, 200⟩,
   ⟨some 30000142, some 34, some BoolVal.vtrue, 100⟩]

/-- A surviving buy order priced 0 — the C3 counterexample. -/
def pricelessBuy : Order := ⟨some 30000142, some 34, some BoolVal.vtrue, 0⟩

/-- A buy-only group sample (type 35). -/
def buyOnlySample : List Order := [⟨some 30000142, some 35, some BoolVal.vtrue, 100⟩]

/-- A sell-only group sample (type 36). -/
def sellOnlySample : List Order := [⟨some 30000142, some 36, some BoolVal.vfalse, 250⟩]

/-- A group whose only record has a non-boolean `is_buy_order` (type 37):
both partitions empty. -/
def neitherSideSample : List Order := [⟨some 30000142, some 37, some BoolVal.vother, 50⟩]

/-- A record from a different system carrying an extreme price. -/
def wrongSystemOrder : Order := ⟨some 10000002, some 34, some BoolVal.vtrue, 999999⟩

/-- A surviving record whose `type_id` is the integer 0. -/
def zeroTypeOrder : Order := ⟨some 30000142, some 0, some BoolVal.vtrue, 500⟩

/-- A surviving type-34 record whose `is_buy_order` is a non-boolean. -/
def otherFlagOrder : Order := ⟨some 30000142, some 34, some BoolVal.vother, 777⟩

/-- Concrete per-page record lists for the pagination witness. -/
def c5pages (p : Int) : List Order :=
  if p = 1 then [⟨some 30000142, some 34, some BoolVal.vtrue, 100⟩]
  else if p = 2 then []
  else [⟨some 30000142, some 34, some BoolVal.vfalse, 200⟩]

theorem entryFor_nil : entryFor [] = none := by
  simp [entryFor, maxBuyPrice, minSellPrice, buySide, sellSide, pyMaxD, pyMinD]

theorem lookupG_addToGroup (d : List (Int × List Order)) (k : Int) (o : Order) (t : Int) :
    lookupG t (addToGroup d k o) = if k = t then lookupG t d ++ [o] else lookupG t d := by
  induction d with
  | nil =>
      by_cases h : k = t <;> simp [addToGroup, lookupG, h]
  | cons hd tl ih =>
      obtain ⟨k', g⟩ := hd
      by_cases hk : k' = k
      · subst hk
        by_cases ht : k' = t <;> simp [addToGroup, lookupG, ht]
      · by_cases ht : k' = t
        · subst ht
          have hkt : ¬ k = k' := fun h => hk h.symm
          simp [addToGroup, lookupG, hk, hkt]
        · simp [addToGroup, lookupG, hk, ht, ih]

theorem lookupG_foldl_groupStep (l : List Order) :
    ∀ acc t, lookupG t (l.foldl groupStep acc) =
      lookupG t acc ++
        (if t = 0 then [] else l.filter (fun o => decide (o.type_id = some t))) := by
  induction l with
  | nil => intro acc t; by_cases h : t = 0 <;> simp [h]
  | cons o rest ih =>
      intro acc t
      show lookupG t (List.foldl groupStep (groupStep acc o) rest) = _
      rw [ih (groupStep acc o) t]
      by_cases ht : t = 0
      · subst ht
        simp only [if_pos rfl, List.append_nil]
        cases hty : o.type_id with
        | none => simp [groupStep, hty]
        | some u =>
            by_cases hu : u = 0
            · simp [groupStep, hty, hu]
            · rw [show groupStep acc o = addToGroup acc u o by simp [groupStep, hty, hu]]
              rw [lookupG_addToGroup]
              have : ¬ u = (0 : Int) := hu
              simp [this]
      · simp only [if_neg ht]
        cases hty : o.type_id with
        | none =>
            have : ¬ o.type_id = some t := by simp [hty]
            simp [groupStep, hty, List.filter_cons, this]
        | some u =>
            by_cases hu : u = 0
            · subst hu
              have h0t : ¬ (0 : Int) = t := fun h => ht h.symm
              simp [groupStep, hty, List.filter_cons, h0t]
            · rw [show groupStep acc o = addToGroup acc u o by simp [groupStep, hty, hu]]
              rw [lookupG_addToGroup]
              by_cases hut : u = t
              · subst hut
                have : o.type_id = some u := hty
                simp [List.filter_cons, this, List.append_assoc]
              · have : ¬ o.type_id = some t := by simp [hty]; exact hut
                simp [hut, List.filter_cons, this]

theorem mem_keysG_addToGroup (d : List (Int × List Order)) (k : Int) (o : Order) (t : Int) :
    t ∈ keysG (addToGroup d k o) ↔ t ∈ keysG d ∨ t = k := by
  induction d with
  | nil => simp [addToGroup, keysG]
  | cons hd tl ih =>
      obtain ⟨k', g⟩ := hd
      by_cases hk : k' = k
      · subst hk; simp [addToGroup, keysG]; tauto
      · simp [addToGroup, keysG, hk] at ih ⊢
        tauto

theorem nodup_keysG_addToGroup (d : List (Int × List Order)) (k : Int) (o : Order)
    (h : (keysG d).Nodup) : (keysG (addToGroup d k o)).Nodup := by
  induction d with
  | nil => simp [addToGroup, keysG]
  | cons hd tl ih =>
      obtain ⟨k', g⟩ := hd
      simp only [keysG, List.map_cons, List.nodup_cons] at h
      by_cases hk : k' = k
      · subst hk
        simpa [addToGroup, keysG] using h
      · have h1 := h.1
        have h2 := ih h.2
        simp only [addToGroup, if_neg hk, keysG, List.map_cons, List.nodup_cons]
        refine ⟨?_, h2⟩
        intro hmem
        rcases (mem_keysG_addToGroup tl k o k').1 hmem with hin | heq
        · exact h1 (by simpa [keysG] using hin)
        · exact hk heq

theorem nodup_keysG_foldl (l : List Order) :
    ∀ acc, (keysG acc).Nodup → (keysG (l.foldl groupStep acc)).Nodup := by
  induction l with
  | nil => intro acc h; simpa using h
  | cons o rest ih =>
      intro acc h
      show (keysG (List.foldl groupStep (groupStep acc o) rest)).Nodup
      apply ih
      cases hty : o.type_id with
      | none => simpa [groupStep, hty] using h
      | some u =>
          by_cases hu : u = 0
          · simpa [groupStep, hty, hu] using h
          · simp only [groupStep, hty, if_neg hu]
            exact nodup_keysG_addToGroup acc u o h

theorem resLookup_eq_entryFor_lookupG (t : Int) (d : List (Int × List Order)) :
    resLookup t d = entryFor (lookupG t d) := by
  induction d with
  | nil => simp [resLookup, lookupG, entryFor_nil]
  | cons hd tl ih =>
      obtain ⟨k, g⟩ := hd
      by_cases hk : k = t <;> simp [resLookup, lookupG, hk, ih]

theorem resLookup_of_not_mem_keysG (t : Int) (d : List (Int × List Order))
    (h : t ∉ keysG d) : resLookup t d = none := by
  induction d with
  | nil => simp [resLookup]
  | cons hd tl ih =>
      obtain ⟨k, g⟩ := hd
      simp only [keysG, List.map_cons, List.mem_cons] at h
      push_neg at h
      have hk : ¬ k = t := fun he => h.1 he.symm
      simp [resLookup, hk, ih (by simpa [keysG] using h.2)]

theorem optOr_none_right (a : Option Entry) : optOr a none = a := by
  cases a <;> rfl

theorem lookupEntry_append (t : Int) (l₁ l₂ : List (Int × Entry)) :
    lookupEntry t (l₁ ++ l₂) = optOr (lookupEntry t l₁) (lookupEntry t l₂) := by
  induction l₁ with
  | nil => simp [lookupEntry, optOr]
  | cons hd tl ih =>
      obtain ⟨k, e⟩ := hd
      by_cases hk : k = t <;> simp [lookupEntry, hk, ih, optOr]

theorem lookupEntry_buildResult (t : Int) (d : List (Int × List Order))
    (h : (keysG d).Nodup) :
    ∀ acc, lookupEntry t (buildResult acc d) = optOr (lookupEntry t acc) (resLookup t d) := by
  induction d with
  | nil => intro acc; cases hl : lookupEntry t acc <;> simp [buildResult, resLookup, optOr, hl]
  | cons hd tl ih =>
      obtain ⟨k, g⟩ := hd
      simp only [keysG, List.map_cons, List.nodup_cons] at h
      intro acc
      have htl := ih h.2
      cases he : entryFor g with
      | some e =>
          simp only [buildResult, he]
          rw [htl (acc ++ [(k, e)]), lookupEntry_append]
          by_cases hk : k = t
          · subst hk
            have hnone : resLookup k tl = none :=
              resLookup_of_not_mem_keysG k tl (by simpa [keysG] using h.1)
            simp only [resLookup, if_pos rfl, he, lookupEntry, hnone, optOr_none_right]
          · simp only [resLookup, if_neg hk, lookupEntry, optOr_none_right]
      | none =>
          simp only [buildResult, he]
          rw [htl acc]
          by_cases hk : k = t
          · subst hk
            have hnone : resLookup k tl = none :=
              resLookup_of_not_mem_keysG k tl (by simpa [keysG] using h.1)
            simp [resLookup, he, hnone]
          · simp only [resLookup, if_neg hk]

/-- Bridge theorem: looking a type id up in the association list built by
`process_orders` gives exactly the mapping `entryAt`. -/
theorem lookupEntry_process (orders : List Order) (t : Int) :
    lookupEntry t (process_orders orders) = entryAt orders t := by
  have hnd : (keysG (ordersByType (filteredOrders orders))).Nodup := by
    apply nodup_keysG_foldl
    simp [keysG]
  rw [process_orders, lookupEntry_buildResult t _ hnd [],
    resLookup_eq_entryFor_lookupG]
  show optOr none _ = _
  rw [show ∀ b, optOr none b = b from fun b => rfl]
  rw [ordersByType, lookupG_foldl_groupStep]
  by_cases ht : t = 0
  · simp [lookupG, ht, entryAt, entryFor_nil]
  · simp only [if_neg ht]
    show entryFor (lookupG t [] ++ _) = _
    simp [lookupG, entryAt, ht, groupOf]

/-! ### Properties of the Python `max`/`min` folds -/

theorem pyMax_mem : ∀ (xs : List Rat) (x : Rat), pyMax x xs ∈ x :: xs := by
  intro xs
  induction xs with
  | nil => intro x; simp [pyMax]
  | cons c cs ih =>
      intro x
      have hfold : pyMax x (c :: cs) = pyMax (max x c) cs := rfl
      rw [hfold]
      rcases List.mem_cons.1 (ih (max x c)) with h | h
      · rw [h]
        rcases max_choice x c with hm | hm <;> simp [hm]
      · simp [List.mem_cons_of_mem, h]

theorem le_pyMax : ∀ (xs : List Rat) (x y : Rat), y ∈ x :: xs → y ≤ pyMax x xs := by
  intro xs
  induction xs with
  | nil =>
      intro x y hy
      have : y = x := by simpa using hy
      simp [pyMax, this]
  | cons c cs ih =>
      intro x y hy
      have hfold : pyMax x (c :: cs) = pyMax (max x c) cs := rfl
      rw [hfold]
      have hhead : max x c ≤ pyMax (max x c) cs :=
        ih (max x c) (max x c) (List.mem_cons_self _ _)
      rcases List.mem_cons.1 hy with h | h
      · subst h
        exact le_trans (le_max_left _ c) hhead
      · rcases List.mem_cons.1 h with h2 | h2
        · subst h2
          exact le_trans (le_max_right x _) hhead
        · exact ih (max x c) y (List.mem_cons_of_mem _ h2)

theorem pyMin_mem : ∀ (xs : List Rat) (x : Rat), pyMin x xs ∈ x :: xs := by
  intro xs
  induction xs with
  | nil => intro x; simp [pyMin]
  | cons c cs ih =>
      intro x
      have hfold : pyMin x (c :: cs) = pyMin (min x c) cs := rfl
      rw [hfold]
      rcases List.mem_cons.1 (ih (min x c)) with h | h
      · rw [h]
        rcases min_choice x c with hm | hm <;> simp [hm]
      · simp [List.mem_cons_of_mem, h]

theorem pyMin_le : ∀ (xs : List Rat) (x y : Rat), y ∈ x :: xs → pyMin x xs ≤ y := by
  intro xs
  induction xs with
  | nil =>
      intro x y hy
      have : y = x := by simpa using hy
      simp [pyMin, this]
  | cons c cs ih =>
      intro x y hy
      have hfold : pyMin x (c :: cs) = pyMin (min x c) cs := rfl
      rw [hfold]
      have hhead : pyMin (min x c) cs ≤ min x c :=
        ih (min x c) (min x c) (List.mem_cons_self _ _)
      rcases List.mem_cons.1 hy with h | h
      · subst h
        exact le_trans hhead (min_le_left _ c)
      · rcases List.mem_cons.1 h with h2 | h2
        · subst h2
          exact le_trans hhead (min_le_right x _)
        · exact ih (min x c) y (List.mem_cons_of_mem _ h2)

theorem pyMaxD_perm (l l' : List Rat) (h : l.Perm l') : pyMaxD l = pyMaxD l' := by
  cases l with
  | nil => rw [← h.nil_eq]
  | cons x xs =>
      cases l' with
      | nil => exact absurd h.symm.nil_eq (by simp)
      | cons x' xs' =>
          exact le_antisymm
            (le_pyMax xs' x' _ (h.subset (pyMax_mem xs x)))
            (le_pyMax xs x _ (h.symm.subset (pyMax_mem xs' x')))

theorem pyMinD_perm (l l' : List Rat) (h : l.Perm l') : pyMinD l = pyMinD l' := by
  cases l with
  | nil => rw [← h.nil_eq]
  | cons x xs =>
      cases l' with
      | nil => exact absurd h.symm.nil_eq (by simp)
      | cons x' xs' =>
          exact le_antisymm
            (pyMin_le xs x _ (h.symm.subset (pyMin_mem xs' x')))
            (pyMin_le xs' x' _ (h.subset (pyMin_mem xs x)))

theorem maxBuyPrice_perm (g g' : List Order) (h : g.Perm g') :
    maxBuyPrice g = maxBuyPrice g' :=
  pyMaxD_perm _ _ ((h.filter _).map _)

theorem minSellPrice_perm (g g' : List Order) (h : g.Perm g') :
    minSellPrice g = minSellPrice g' :=
  pyMinD_perm _ _ ((h.filter _).map _)

theorem entryFor_perm (g g' : List Order) (h : g.Perm g') :
    entryFor g = entryFor g' := by
  simp only [entryFor, maxBuyPrice_perm g g' h, minSellPrice_perm g g' h]

theorem groupOf_perm (orders orders' : List Order) (t : Int)
    (h : orders.Perm orders') : (groupOf orders t).Perm (groupOf orders' t) :=
  (h.filter _).filter _

theorem entryAt_perm (orders orders' : List Order) (t : Int)
    (h : orders.Perm orders') : entryAt orders t = entryAt orders' t := by
  by_cases ht : t = 0
  · simp [entryAt, ht]
  · simp only [entryAt, if_neg ht]
    exact entryFor_perm _ _ (groupOf_perm orders orders' t h)

/-! ### Structure of the per-group entry -/

theorem entryFor_some (g : List Order) (e : Entry) (h : entryFor g = some e) :
    e = ⟨if 0 < maxBuyPrice g then some (maxBuyPrice g) else none,
         if 0 < minSellPrice g then some (minSellPrice g) else none⟩ := by
  simp only [entryFor] at h
  by_cases hz : maxBuyPrice g = 0 ∧ minSellPrice g = 0
  · rw [if_pos hz] at h
    exact absurd h (by simp)
  · rw [if_neg hz] at h
    exact (Option.some.inj h).symm

theorem maxBuyPrice_spec (g : List Order) (h : 0 < maxBuyPrice g) :
    maxBuyPrice g ∈ (buySide g).map Order.price ∧
      ∀ p ∈ (buySide g).map Order.price, p ≤ maxBuyPrice g := by
  cases hm : (buySide g).map Order.price with
  | nil =>
      rw [maxBuyPrice, hm] at h
      exact absurd h (by simp [pyMaxD])
  | cons x xs =>
      rw [maxBuyPrice, hm]
      exact ⟨pyMax_mem xs x, fun p hp => le_pyMax xs x p hp⟩

theorem minSellPrice_spec (g : List Order) (h : 0 < minSellPrice g) :
    minSellPrice g ∈ (sellSide g).map Order.price ∧
      ∀ p ∈ (sellSide g).map Order.price, minSellPrice g ≤ p := by
  cases hm : (sellSide g).map Order.price with
  | nil =>
      rw [minSellPrice, hm] at h
      exact absurd h (by simp [pyMinD])
  | cons x xs =>
      rw [minSellPrice, hm]
      exact ⟨pyMin_mem xs x, fun p hp => pyMin_le xs x p hp⟩

/-! ### Removing a record that a filter rejects changes nothing -/

theorem filter_middle_false (p : Order → Bool) (l₁ l₂ : List Order) (o : Order)
    (h : p o = false) : (l₁ ++ o :: l₂).filter p = (l₁ ++ l₂).filter p := by
  simp [List.filter_append, List.filter_cons, h]

theorem lookupG_ordersByType (orders : List Order) (t : Int) :
    lookupG t (ordersByType (filteredOrders orders)) =
      if t = 0 then [] else groupOf orders t := by
  rw [ordersByType, lookupG_foldl_groupStep]
  by_cases ht : t = 0 <;> simp [lookupG, ht, groupOf]

theorem filteredOrders_middle_out (l₁ l₂ : List Order) (o : Order)
    (h : o.system_id ≠ some TARGET_SYSTEM_ID) :
    filteredOrders (l₁ ++ o :: l₂) = filteredOrders (l₁ ++ l₂) := by
  apply filter_middle_false
  simpa using h

theorem groupOf_middle_mem (l₁ l₂ : List Order) (o : Order) (t : Int)
    (hs : o.system_id = some TARGET_SYSTEM_ID) (htt : o.type_id = some t) :
    groupOf (l₁ ++ o :: l₂) t = groupOf l₁ t ++ o :: groupOf l₂ t := by
  simp [groupOf, filteredOrders, List.filter_append, List.filter_cons, hs, htt]

theorem groupOf_append (l₁ l₂ : List Order) (t : Int) :
    groupOf (l₁ ++ l₂) t = groupOf l₁ t ++ groupOf l₂ t := by
  simp [groupOf, filteredOrders, List.filter_append]

theorem groupOf_middle_wrong_type (l₁ l₂ : List Order) (o : Order) (t : Int)
    (h : o.type_id ≠ some t) :
    groupOf (l₁ ++ o :: l₂) t = groupOf (l₁ ++ l₂) t := by
  by_cases hs : o.system_id = some TARGET_SYSTEM_ID
  · have hf : filteredOrders (l₁ ++ o :: l₂) = filteredOrders l₁ ++ o :: filteredOrders l₂ := by
      simp [filteredOrders, List.filter_append, List.filter_cons, hs]
    have hf2 : filteredOrders (l₁ ++ l₂) = filteredOrders l₁ ++ filteredOrders l₂ := by
      simp [filteredOrders, List.filter_append]
    unfold groupOf
    rw [hf, hf2]
    apply filter_middle_false
    simpa using h
  · unfold groupOf
    rw [filteredOrders_middle_out l₁ l₂ o hs]

theorem entryFor_middle_unpartitioned (a b : List Order) (o : Order)
    (h1 : o.is_buy_order ≠ some BoolVal.vtrue)
    (h2 : o.is_buy_order ≠ some BoolVal.vfalse) :
    entryFor (a ++ o :: b) = entryFor (a ++ b) := by
  have hb : buySide (a ++ o :: b) = buySide (a ++ b) := by
    unfold buySide
    apply filter_middle_false
    simpa using h1
  have hs : sellSide (a ++ o :: b) = sellSide (a ++ b) := by
    unfold sellSide
    apply filter_middle_false
    simpa using h2
  simp only [entryFor, maxBuyPrice, minSellPrice, hb, hs]

/-! ### Claim theorems: the order aggregator -/

/-- C2: for every input order list and every item id present in the
aggregate, the entry's `b` value is the maximum price among that item's
surviving buy-side records (it is one of them and bounds them all), its
`s` value is likewise the minimum over the sell-side records, and the
aggregate — as the mapping the result dict denotes — is unchanged under
any permutation of the input order list. -/
theorem c2_entry_extremes_and_perm_invariance
    (orders orders' : List Order) (t : Int) (e : Entry) :
    (lookupEntry t (process_orders orders) = some e →
      (∀ v, e.b = some v →
        v ∈ (buySide (groupOf orders t)).map Order.price ∧
          ∀ p ∈ (buySide (groupOf orders t)).map Order.price, p ≤ v) ∧
      (∀ v, e.s = some v →
        v ∈ (sellSide (groupOf orders t)).map Order.price ∧
          ∀ p ∈ (sellSide (groupOf orders t)).map Order.price, v ≤ p)) ∧
    (orders.Perm orders' →
      lookupEntry t (process_orders orders) = lookupEntry t (process_orders orders')) := by
  constructor
  · intro h
    rw [lookupEntry_process, entryAt] at h
    by_cases ht : t = 0
    · rw [if_pos ht] at h
      exact absurd h (by simp)
    rw [if_neg ht] at h
    simp only [entryFor] at h
    by_cases hz : maxBuyPrice (groupOf orders t) = 0 ∧ minSellPrice (groupOf orders t) = 0
    · rw [if_pos hz] at h
      exact absurd h (by simp)
    rw [if_neg hz] at h
    have h2 := Option.some.inj h
    have hbeq : (if 0 < maxBuyPrice (groupOf orders t)
        then some (maxBuyPrice (groupOf orders t)) else none) = e.b :=
      congrArg Entry.b h2
    have hseq : (if 0 < minSellPrice (groupOf orders t)
        then some (minSellPrice (groupOf orders t)) else none) = e.s :=
      congrArg Entry.s h2
    constructor
    · intro v hv
      rw [← hbeq] at hv
      by_cases hpos : 0 < maxBuyPrice (groupOf orders t)
      · rw [if_pos hpos] at hv
        have hveq := Option.some.inj hv
        rw [← hveq]
        exact maxBuyPrice_spec _ hpos
      · rw [if_neg hpos] at hv
        exact absurd hv (by simp)
    · intro v hv
      rw [← hseq] at hv
      by_cases hpos : 0 < minSellPrice (groupOf orders t)
      · rw [if_pos hpos] at hv
        have hveq := Option.some.inj hv
        rw [← hveq]
        exact minSellPrice_spec _ hpos
      · rw [if_neg hpos] at hv
        exact absurd hv (by simp)
  · intro hp
    rw [lookupEntry_process, lookupEntry_process]
    exact entryAt_perm _ _ _ hp

/-- Witness for C2 on `sampleOrders`: the entry for type 34 carries
`b = 150`, the maximum of the buy prices, and the aggregate agrees with
the one computed from a permutation of the input. -/
theorem c2_witness :
    ((150 : Rat) ∈ (buySide (groupOf sampleOrders 34)).map Order.price ∧
      ∀ p ∈ (buySide (groupOf sampleOrders 34)).map Order.price, p ≤ (150 : Rat)) ∧
    lookupEntry 34 (process_orders sampleOrders) =
      lookupEntry 34 (process_orders sampleOrdersPerm) :=
  ⟨((c2_entry_extremes_and_perm_invariance sampleOrders sampleOrdersPerm 34
      ⟨some 150, some 180⟩).1 (by decide)).1 150 rfl,
   (c2_entry_extremes_and_perm_invariance sampleOrders sampleOrdersPerm 34
      ⟨some 150, some 180⟩).2 (by decide)⟩

/-- C3 counterexample: a group holding one surviving buy order priced 0
and no sell orders produces no output entry at all, not an entry with `b`
present — `max_buy_price = 0` makes the code skip the group. -/
theorem c3_counterexample :
    buySide (groupOf [pricelessBuy] 34) ≠ [] ∧
    sellSide (groupOf [pricelessBuy] 34) = [] ∧
    lookupEntry 34 (process_orders [pricelessBuy]) = none := by decide

/-- C3 as amended: for a group whose computed maximum buy price is
positive and which has no sell orders, the entry has `b` present and `s`
absent; dually for a positive minimum sell price with no buy orders; and
with no orders on either side the item has no entry at all. -/
theorem c3_amended_one_sided_entries (orders : List Order) (t : Int) (ht : t ≠ 0) :
    (0 < maxBuyPrice (groupOf orders t) → sellSide (groupOf orders t) = [] →
      lookupEntry t (process_orders orders) =
        some ⟨some (maxBuyPrice (groupOf orders t)), none⟩) ∧
    (0 < minSellPrice (groupOf orders t) → buySide (groupOf orders t) = [] →
      lookupEntry t (process_orders orders) =
        some ⟨none, some (minSellPrice (groupOf orders t))⟩) ∧
    (buySide (groupOf orders t) = [] → sellSide (groupOf orders t) = [] →
      lookupEntry t (process_orders orders) = none) := by
  refine ⟨?_, ?_, ?_⟩
  · intro hbp hse
    rw [lookupEntry_process, entryAt, if_neg ht]
    have hms : minSellPrice (groupOf orders t) = 0 := by
      rw [minSellPrice, hse]
      rfl
    simp only [entryFor, hms]
    rw [if_neg (fun hc => hbp.ne' hc.1), if_pos hbp, if_neg (lt_irrefl (0 : Rat))]
  · intro hsp hbe
    rw [lookupEntry_process, entryAt, if_neg ht]
    have hmb : maxBuyPrice (groupOf orders t) = 0 := by
      rw [maxBuyPrice, hbe]
      rfl
    simp only [entryFor, hmb]
    rw [if_neg (fun hc => hsp.ne' hc.2), if_neg (lt_irrefl (0 : Rat)), if_pos hsp]
  · intro hbe hse
    rw [lookupEntry_process, entryAt, if_neg ht]
    have hmb : maxBuyPrice (groupOf orders t) = 0 := by
      rw [maxBuyPrice, hbe]
      rfl
    have hms : minSellPrice (groupOf orders t) = 0 := by
      rw [minSellPrice, hse]
      rfl
    simp [entryFor, hmb, hms]

/-- Witness for the amended C3: a buy-only group yields `b` without `s`,
a sell-only group the reverse, and a group with neither side yields no
entry. -/
theorem c3_amended_witness :
    lookupEntry 35 (process_orders buyOnlySample) =
      some ⟨some (maxBuyPrice (groupOf buyOnlySample 35)), none⟩ ∧
    lookupEntry 36 (process_orders sellOnlySample) =
      some ⟨none, some (minSellPrice (groupOf sellOnlySample 36))⟩ ∧
    lookupEntry 37 (process_orders neitherSideSample) = none :=
  ⟨(c3_amended_one_sided_entries buyOnlySample 35 (by decide)).1 (by decide) (by decide),
   (c3_amended_one_sided_entries sellOnlySample 36 (by decide)).2.1 (by decide) (by decide),
   (c3_amended_one_sided_entries neitherSideSample 37 (by decide)).2.2 (by decide) (by decide)⟩

/-- C4: the aggregator keeps exactly the records whose system identifier
(the record's trading-locale field) equals 30000142, and a record with a
different identifier never influences the aggregate, whatever its price:
deleting it from anywhere in the input leaves every looked-up entry
unchanged. -/
theorem c4_system_filter_exact_and_no_influence
    (orders l₁ l₂ : List Order) (o : Order) (t : Int) :
    (o ∈ filteredOrders orders ↔ o ∈ orders ∧ o.system_id = some TARGET_SYSTEM_ID) ∧
    (o.system_id ≠ some TARGET_SYSTEM_ID →
      lookupEntry t (process_orders (l₁ ++ o :: l₂)) =
        lookupEntry t (process_orders (l₁ ++ l₂))) := by
  constructor
  · simp [filteredOrders, List.mem_filter]
  · intro hno
    rw [lookupEntry_process, lookupEntry_process]
    unfold entryAt groupOf
    rw [filteredOrders_middle_out l₁ l₂ o hno]

/-- Witness for C4: the membership characterisation at a concrete record,
and an off-system order with an extreme price leaving the type-34 entry
untouched. -/
theorem c4_witness :
    (pricelessBuy ∈ filteredOrders [pricelessBuy] ↔
      pricelessBuy ∈ [pricelessBuy] ∧ pricelessBuy.system_id = some TARGET_SYSTEM_ID) ∧
    lookupEntry 34 (process_orders (sampleOrders ++ wrongSystemOrder :: [])) =
      lookupEntry 34 (process_orders (sampleOrders ++ [])) :=
  ⟨(c4_system_filter_exact_and_no_influence [pricelessBuy] sampleOrders [] pricelessBuy 34).1,
   (c4_system_filter_exact_and_no_influence [pricelessBuy] sampleOrders []
      wrongSystemOrder 34).2 (by decide)⟩

/-- C9: a surviving record whose `type_id` is the integer 0 (not merely
absent) is dropped by the grouping step — every group is as if the record
were deleted — and it never contributes to the output aggregate. -/
theorem c9_zero_type_id_never_contributes (l₁ l₂ : List Order) (o : Order)
    (h : o.type_id = some 0) :
    (∀ t, lookupG t (ordersByType (filteredOrders (l₁ ++ o :: l₂))) =
        lookupG t (ordersByType (filteredOrders (l₁ ++ l₂)))) ∧
    (∀ t, lookupEntry t (process_orders (l₁ ++ o :: l₂)) =
        lookupEntry t (process_orders (l₁ ++ l₂))) := by
  have hgroup : ∀ t, t ≠ 0 → groupOf (l₁ ++ o :: l₂) t = groupOf (l₁ ++ l₂) t := by
    intro t ht
    apply groupOf_middle_wrong_type
    intro hc
    rw [h] at hc
    exact ht (Option.some.inj hc).symm
  constructor
  · intro t
    rw [lookupG_ordersByType, lookupG_ordersByType]
    by_cases ht : t = 0
    · simp [ht]
    · simp only [if_neg ht]
      exact hgroup t ht
  · intro t
    rw [lookupEntry_process, lookupEntry_process, entryAt, entryAt]
    by_cases ht : t = 0
    · simp [ht]
    · simp only [if_neg ht]
      rw [hgroup t ht]

/-- Witness for C9: appending a surviving type-0 buy order changes
neither the type-34 group nor the type-34 entry. -/
theorem c9_witness :
    lookupG 34 (ordersByType (filteredOrders (sampleOrders ++ zeroTypeOrder :: []))) =
      lookupG 34 (ordersByType (filteredOrders (sampleOrders ++ []))) ∧
    lookupEntry 34 (process_orders (sampleOrders ++ zeroTypeOrder :: [])) =
      lookupEntry 34 (process_orders (sampleOrders ++ [])) :=
  ⟨(c9_zero_type_id_never_contributes sampleOrders [] zeroTypeOrder (by decide)).1 34,
   (c9_zero_type_id_never_contributes sampleOrders [] zeroTypeOrder (by decide)).2 34⟩

/-- C10: a surviving record whose `is_buy_order` is absent or any value
other than the booleans `True`/`False` lands in neither partition of its
group, and its price never contributes to any `b` or `s`: deleting the
record leaves every looked-up entry unchanged. -/
theorem c10_unpartitioned_flag_never_contributes (l₁ l₂ : List Order) (o : Order) (t : Int)
    (h1 : o.is_buy_order ≠ some BoolVal.vtrue)
    (h2 : o.is_buy_order ≠ some BoolVal.vfalse) :
    o ∉ buySide (groupOf (l₁ ++ o :: l₂) t) ∧
    o ∉ sellSide (groupOf (l₁ ++ o :: l₂) t) ∧
    lookupEntry t (process_orders (l₁ ++ o :: l₂)) =
      lookupEntry t (process_orders (l₁ ++ l₂)) := by
  refine ⟨?_, ?_, ?_⟩
  · intro hmem
    rw [buySide, List.mem_filter] at hmem
    exact h1 (of_decide_eq_true hmem.2)
  · intro hmem
    rw [sellSide, List.mem_filter] at hmem
    exact h2 (of_decide_eq_true hmem.2)
  · rw [lookupEntry_process, lookupEntry_process, entryAt, entryAt]
    by_cases ht : t = 0
    · simp [ht]
    · simp only [if_neg ht]
      by_cases hs : o.system_id = some TARGET_SYSTEM_ID
      · by_cases htt : o.type_id = some t
        · rw [groupOf_middle_mem l₁ l₂ o t hs htt, groupOf_append]
          exact entryFor_middle_unpartitioned _ _ _ h1 h2
        · rw [groupOf_middle_wrong_type l₁ l₂ o t htt]
      · unfold groupOf
        rw [filteredOrders_middle_out l₁ l₂ o hs]

/-- Witness for C10: a surviving type-34 record with a non-boolean flag is
in neither partition and leaves the type-34 entry unchanged. -/
theorem c10_witness :
    otherFlagOrder ∉ buySide (groupOf (sampleOrders ++ otherFlagOrder :: []) 34) ∧
    otherFlagOrder ∉ sellSide (groupOf (sampleOrders ++ otherFlagOrder :: []) 34) ∧
    lookupEntry 34 (process_orders (sampleOrders ++ otherFlagOrder :: [])) =
      lookupEntry 34 (process_orders (sampleOrders ++ [])) :=
  c10_unpartitioned_flag_never_contributes sampleOrders [] otherFlagOrder 34
    (by decide) (by decide)

/-! ### Claim theorems: error handling and the failure classifier -/

/-- C1: when the pipeline succeeds the exit status is 0; when it raises,
the classifier — a total function, so it never itself raises — returns 1
exactly when the probe succeeded with a parsed numeric `players` value
truncating to a positive integer, and 2 when the probe failed, the field
was absent or non-numeric, or the parsed count is ≤ 0. -/
theorem c1_exit_status_classification
    (pipeline : Except FetchError (List (Int × Entry))) (probe : ProbeResult) :
    (∀ r, pipeline = .ok r → mainRun pipeline probe = EXIT_SUCCESS) ∧
    (∀ e, pipeline = .error e →
      ((∀ q, probe = .ok (some (.num q)) → 0 < pyTrunc q →
          mainRun pipeline probe = EXIT_REAL_FAILURE) ∧
       (∀ q, probe = .ok (some (.num q)) → pyTrunc q ≤ 0 →
          mainRun pipeline probe = EXIT_MAINTENANCE) ∧
       (probe = .fail → mainRun pipeline probe = EXIT_MAINTENANCE) ∧
       (probe = .ok none → mainRun pipeline probe = EXIT_MAINTENANCE) ∧
       (probe = .ok (some .nonnum) → mainRun pipeline probe = EXIT_MAINTENANCE))) := by
  constructor
  · intro r hr
    rw [hr]
    rfl
  · intro e he
    subst he
    refine ⟨?_, ?_, ?_, ?_, ?_⟩
    · intro q hq hpos
      subst hq
      simp [mainRun, classify, check_esi_status, hpos]
    · intro q hq hle
      subst hq
      simp [mainRun, classify, check_esi_status, not_lt.2 hle]
    · intro hf
      subst hf
      rfl
    · intro hf
      subst hf
      rfl
    · intro hf
      subst hf
      rfl

/-- Witness for C1: all six rows of the decision table at concrete
inputs. -/
theorem c1_witness :
    mainRun (.ok []) (.ok (some (.num 1234))) = EXIT_SUCCESS ∧
    mainRun (.error .timeout) (.ok (some (.num 1234))) = EXIT_REAL_FAILURE ∧
    mainRun (.error .timeout) (.ok (some (.num 0))) = EXIT_MAINTENANCE ∧
    mainRun (.error .timeout) .fail = EXIT_MAINTENANCE ∧
    mainRun (.error .timeout) (.ok none) = EXIT_MAINTENANCE ∧
    mainRun (.error .timeout) (.ok (some .nonnum)) = EXIT_MAINTENANCE :=
  ⟨(c1_exit_status_classification (.ok []) (.ok (some (.num 1234)))).1 [] rfl,
   ((c1_exit_status_classification (.error .timeout) (.ok (some (.num 1234)))).2
      .timeout rfl).1 1234 rfl (by decide),
   ((c1_exit_status_classification (.error .timeout) (.ok (some (.num 0)))).2
      .timeout rfl).2.1 0 rfl (by decide),
   ((c1_exit_status_classification (.error .timeout) .fail).2 .timeout rfl).2.2.1 rfl,
   ((c1_exit_status_classification (.error .timeout) (.ok none)).2 .timeout rfl).2.2.2.1 rfl,
   ((c1_exit_status_classification (.error .timeout) (.ok (some .nonnum))).2
      .timeout rfl).2.2.2.2 rfl⟩

/-- C6: for any page other than 1, the page fetcher propagates no error:
any failure yields that page number paired with the empty record list
(and a success yields the decoded records) — the return type carries no
error at all. -/
theorem c6_page_errors_swallowed (page : Int) (hp : page ≠ 1)
    (e : FetchError) (records : List Order) :
    fetch_page page (.error e) = (page, []) ∧
    fetch_page page (.ok records) = (page, records) :=
  ⟨rfl, rfl⟩

/-- Witness for C6: page 2, timed out, yields `(2, [])`. -/
theorem c6_witness :
    fetch_page 2 (.error .timeout) = (2, []) ∧
    fetch_page 2 (.ok sampleOrders) = (2, sampleOrders) :=
  c6_page_errors_swallowed 2 (by decide) .timeout sampleOrders

/-- C7: a failed page-1 request propagates out of `get_total_pages`,
out of `fetch_all_pages`, and out of the whole pipeline as the same hard
error — in particular the pipeline produces no aggregate, so neither
aggregation nor persistence happens. -/
theorem c7_page1_error_propagates (e : FetchError) (results : List (Int × List Order)) :
    get_total_pages (.error e) = .error e ∧
    fetch_all_pages (.error e) results = .error e ∧
    runPipeline (.error e) results = .error e :=
  ⟨rfl, rfl, rfl⟩

/-- C8 counterexample: a present-but-unparsable `x-pages` header does NOT
default the page count to 1 — `int('abc')` raises, and the error
propagates instead of page 1's records being returned. -/
theorem c8_counterexample :
    get_total_pages (Except.ok ⟨some "abc", [pricelessBuy]⟩) =
      Except.error FetchError.valueError ∧
    fetch_all_pages (Except.ok ⟨some "abc", [pricelessBuy]⟩) [] ≠
      Except.ok [pricelessBuy] := by decide

/-- C8 as amended: an absent `x-pages` header defaults the total page
count to 1, so only page 1's records are returned; a present header that
does not parse as an integer makes `int()` raise, and that error
propagates out of the coordinator. -/
theorem c8_amended_header_default (records : List Order)
    (results : List (Int × List Order)) :
    fetch_all_pages (.ok ⟨none, records⟩) results = .ok records ∧
    (∀ s, pyIntOfString s = none →
      fetch_all_pages (.ok ⟨some s, records⟩) results = .error .valueError) := by
  constructor
  · rfl
  · intro s hs
    simp [fetch_all_pages, get_total_pages, hs]

/-! ### The pagination merge (C5) -/

theorem dictInsert_of_not_mem (d : List (Int × List Order)) (k : Int) (v : List Order)
    (h : k ∉ keysG d) : dictInsert d k v = d ++ [(k, v)] := by
  induction d with
  | nil => rfl
  | cons hd tl ih =>
      obtain ⟨k', v'⟩ := hd
      simp only [keysG, List.map_cons, List.mem_cons] at h
      push_neg at h
      have hk : ¬ k' = k := fun he => h.1 he.symm
      simp [dictInsert, hk, ih (by simpa [keysG] using h.2)]

theorem foldl_dictInsert_eq_append :
    ∀ (l acc : List (Int × List Order)), (keysG acc ++ keysG l).Nodup →
      l.foldl (fun d pd => dictInsert d pd.1 pd.2) acc = acc ++ l := by
  intro l
  induction l with
  | nil => intro acc h; simp
  | cons hd tl ih =>
      intro acc h
      obtain ⟨k, v⟩ := hd
      show List.foldl _ (dictInsert acc k v) tl = _
      have hsplit := List.nodup_append.1 (by simpa [keysG] using h)
      have hk : k ∉ keysG acc := fun hmem =>
        hsplit.2.2 hmem (List.mem_cons_self _ _)
      have hnd2 : (keysG (acc ++ [(k, v)]) ++ keysG tl).Nodup := by
        have h' : (keysG acc ++ k :: keysG tl).Nodup := by simpa [keysG] using h
        rw [List.append_cons] at h'
        simpa [keysG, List.map_append] using h'
      rw [dictInsert_of_not_mem acc k v hk, ih (acc ++ [(k, v)]) hnd2]
      simp

theorem resultsDict_eq_self (results : List (Int × List Order))
    (h : (keysG results).Nodup) : resultsDict results = results := by
  have := foldl_dictInsert_eq_append results [] (by simpa [keysG] using h)
  simpa [resultsDict] using this

theorem lookupG_of_mem_nodup (d : List (Int × List Order)) (k : Int) (v : List Order)
    (hnd : (keysG d).Nodup) (hm : (k, v) ∈ d) : lookupG k d = v := by
  induction d with
  | nil => simp at hm
  | cons hd tl ih =>
      obtain ⟨k', v'⟩ := hd
      simp only [keysG, List.map_cons, List.nodup_cons] at hnd
      rcases List.mem_cons.1 hm with h | h
      · cases h
        simp [lookupG]
      · by_cases hk : k' = k
        · subst hk
          have : k' ∈ List.map Prod.fst tl := List.mem_map_of_mem Prod.fst h
          exact absurd this hnd.1
        · simp only [lookupG, if_neg hk]
          exact ih hnd.2 h

theorem pagesFrom2_sorted (N : Int) : List.Sorted (· ≤ ·) (pagesFrom2 N) := by
  unfold pagesFrom2
  apply List.pairwise_map.mpr
  apply List.Pairwise.imp ?_ (List.pairwise_lt_range' 2 ((N - 1).toNat))
  intro a b hab
  exact_mod_cast Nat.le_of_lt hab

theorem pagesFrom2_nodup (N : Int) : (pagesFrom2 N).Nodup :=
  (List.nodup_range' 2 ((N - 1).toNat)).map (fun a b h => Nat.cast_injective h)

theorem foldl_extend_lookup (d : List (Int × List Order)) (f : Int → List Order) :
    ∀ (ps : List Int) (init : List Order), (∀ p ∈ ps, lookupG p d = f p) →
      ps.foldl (fun acc p => acc ++ lookupG p d) init = init ++ (ps.map f).flatten := by
  intro ps
  induction ps with
  | nil => intro init h; simp
  | cons p rest ih =>
      intro init h
      show List.foldl _ (init ++ lookupG p d) rest = _
      rw [ih (init ++ lookupG p d) (fun q hq => h q (List.mem_cons_of_mem _ hq)),
        h p (List.mem_cons_self _ _)]
      simp [List.append_assoc, List.flatten]

/-- C5: for every total page count `N ≥ 1` and every completion order of
the fan-out (any permutation of the per-page results for pages `2..N`),
the merged record list equals the concatenation of the per-page record
lists in ascending page order: page 1's records, then page 2's, ...,
then page N's. -/
theorem c5_merge_is_ascending_concat (N : Int) (hN : 1 ≤ N) (f : Int → List Order)
    (results : List (Int × List Order))
    (hres : results.Perm ((pagesFrom2 N).map (fun p => (p, f p)))) :
    fetch_all_pages_merge N (f 1) results = ((pageSeq N).map f).flatten := by
  by_cases h1 : N = 1
  · subst h1
    rw [fetch_all_pages_merge, if_pos rfl]
    simp [pageSeq, pagesFrom2]
  · rw [fetch_all_pages_merge, if_neg h1]
    have hkeys : (keysG results).Perm (pagesFrom2 N) := by
      have hmap := hres.map Prod.fst
      simpa [keysG, List.map_map, Function.comp_def] using hmap
    have hnd : (keysG results).Nodup :=
      (List.Perm.nodup_iff hkeys).2 (pagesFrom2_nodup N)
    have hdict : resultsDict results = results := resultsDict_eq_self results hnd
    have hsorted : (keysG (resultsDict results)).insertionSort (· ≤ ·) = pagesFrom2 N := by
      apply List.eq_of_perm_of_sorted
        ((List.perm_insertionSort _ _).trans (by rw [hdict]; exact hkeys))
        (List.sorted_insertionSort _ _) (pagesFrom2_sorted N)
    have hmem : ∀ p ∈ pagesFrom2 N, lookupG p results = f p := by
      intro p hp
      exact lookupG_of_mem_nodup results p (f p) hnd
        (hres.symm.subset (List.mem_map_of_mem _ hp))
    show ((keysG (resultsDict results)).insertionSort (· ≤ ·)).foldl
        (fun acc p => acc ++ lookupG p (resultsDict results)) (f 1) = _
    rw [hsorted, hdict, foldl_extend_lookup results f (pagesFrom2 N) (f 1) hmem]
    simp [pageSeq]

/-- Witness for C5: three pages, with the fan-out results arriving out of
order (page 3 before page 2), merge into pages 1, 2, 3 ascending. -/
theorem c5_witness :
    fetch_all_pages_merge 3 (c5pages 1)
        [(3, c5pages 3), (2, c5pages 2)] =
      ((pageSeq 3).map c5pages).flatten :=
  c5_merge_is_ascending_concat 3 (by decide) c5pages
    [(3, c5pages 3), (2, c5pages 2)] (by decide)

/-- Witness for the amended C8 at concrete inputs. -/
theorem c8_amended_witness :
    fetch_all_pages (.ok ⟨none, [pricelessBuy]⟩) [(2, sampleOrders)] = .ok [pricelessBuy] ∧
    fetch_all_pages (.ok ⟨some "abc", [pricelessBuy]⟩) [(2, sampleOrders)] =
      .error .valueError :=
  ⟨(c8_amended_header_default [pricelessBuy] [(2, sampleOrders)]).1,
   (c8_amended_header_default [pricelessBuy] [(2, sampleOrders)]).2 "abc" (by decide)⟩

end MarketPrices
